import Mathlib

/-!
Verification of the mid-body detection, tracking and selection engine of
`cut_detector` (`src/cut_detector/factories/mid_body_detection_factory.py`)
against its natural-language specification.

The Python code is shallowly embedded: Python floats are modelled as `ℚ`
where the source only adds, multiplies, divides and compares them, and as
`ℝ` where a square root is taken (the Euclidean distance); `numpy` infinities
are modelled with `EReal` / `WithTop` / `WithBot`; Python exceptions are
modelled with `Except`.
-/

namespace CutDetector

/-- A detected spot, as constructed by `_spot_detection`
(`MidBodySpot(frame, x=..., y=..., intensity=..., sir_intensity=...)`):
integer pixel position and the two integer mean intensities returned by
`_get_average_intensity` (which returns `int(np.mean(crop))`). -/
structure MidBodySpot where
  frame : ℕ
  x : ℤ
  y : ℤ
  intensity : ℤ
  sir_intensity : ℤ
  deriving DecidableEq, Repr

/-- The configuration fields of `MidBodyDetectionFactory.__init__`. -/
structure Factory where
  weight_mklp_intensity_factor : ℚ
  weight_sir_intensity_factor : ℚ
  mid_body_linking_max_distance : ℚ
  h_maxima_threshold : ℚ
  sigma : ℚ
  threshold : ℚ
  cytokinesis_duration : ℕ
  minimum_mid_body_track_length : ℕ
  deriving DecidableEq, Repr

/-- The default constructor arguments of `MidBodyDetectionFactory.__init__`.
`cytokinesis_duration` defaults to the constant `CYTOKINESIS_DURATION` from
`constants/tracking.py`, which is not among the repository files; it is kept
as a parameter. -/
def defaultFactory (cytokinesis_duration : ℕ) : Factory :=
  { weight_mklp_intensity_factor := 5
    weight_sir_intensity_factor := 3/2
    mid_body_linking_max_distance := 175
    h_maxima_threshold := 5
    sigma := 2
    threshold := 1
    cytokinesis_duration := cytokinesis_duration
    minimum_mid_body_track_length := 10 }

/-- Python exceptions raised by the embedded code paths. -/
inductive PyErr where
  | valueError (msg : String)
  | keyError (key : String)
  | typeError (msg : String)
  deriving DecidableEq, Repr

/-! ## Spot detection dispatch (`_spot_detection`, lines 199–338) -/

/-- The membership list of the `elif mode in [...]` test in `_spot_detection`
(lines 209–213).  In the source the list is written

  `"cur_dog", "diffgau"` / `"cur_doh", "hessian"`

with a missing comma after `"diffgau"`, so Python concatenates the two
adjacent string literals into the single element `"diffgaucur_doh"`. -/
def blobNameList : List String :=
  ["cur_log", "lapgau", "log2_wider", "shifted_centered_log",
   "cur_dog", "diffgaucur_doh", "hessian"]

/-- The name → detector `mapping` dict of `_spot_detection` (lines 216–228);
each value stands for the `mb_support.detection` function it references. -/
def blobMapping : List (String × String) :=
  [("cur_log", "current_log"), ("cur_dog", "current_dog"),
   ("cur_doh", "current_doh"), ("lapgau", "lapgau"),
   ("log2_wider", "log2_wider"), ("rshit_log", "rshift_log"),
   ("diffgau", "diffgau"), ("hessian", "hessian")]

/-- Which detection path of `_spot_detection` runs for a given mode. -/
inductive DispatchOutcome where
  | callableMode
  | blobDetector (fn : String)
  | bigfishPath
  | hMaximaPath
  deriving DecidableEq, Repr

/-- The `mode` argument of `_spot_detection`: a string name or a callable. -/
inductive Mode where
  | name (s : String)
  | callableFn
  deriving DecidableEq, Repr

/-- The `if callable(mode) / elif mode in [...] / elif mode == "bigfish" /
elif mode == "h_maxima" / else raise ValueError(f"Unknown mode: ...")`
dispatch of `_spot_detection`.  Looking a name up in the `mapping` dict
raises `KeyError` when the key is absent. -/
def spotDetectionDispatch (mode : Mode) : Except PyErr DispatchOutcome :=
  match mode with
  | .callableFn => .ok .callableMode
  | .name s =>
    if s ∈ blobNameList then
      match blobMapping.lookup s with
      | some fn => .ok (.blobDetector fn)
      | none => .error (.keyError s)
    else if s = "bigfish" then .ok .bigfishPath
    else if s = "h_maxima" then .ok .hMaximaPath
    else .error (.valueError ("Unknown mode: " ++ s))

/-- The ten built-in strategy names the spec lists as selectable. -/
def specBuiltinNames : List String :=
  ["bigfish", "h_maxima", "cur_log", "lapgau", "log2_wider",
   "shifted_centered_log", "cur_dog", "diffgau", "cur_doh", "hessian"]

/-! ## Callable-mode blob normalization (`_spot_detection`, lines 199–207) -/

/-- Python `int(x)` on a float: truncation toward zero. -/
def pyInt (q : ℚ) : ℤ := if 0 ≤ q then ⌊q⌋ else -⌊-q⌋

/-- Python two-argument `int(x, base)`.  It accepts only `str`, `bytes` or
`bytearray` first arguments; on a numeric first argument it raises
`TypeError: int() can't convert non-string with explicit base`.  Detector
blobs are numeric tuples, so the numeric case is the one modelled. -/
def pyIntBase (_x : ℚ) (_base : ℤ) : Except PyErr ℤ :=
  .error (.typeError "int() can't convert non-string with explicit base")

/-- The callable-mode normalization of `_spot_detection` (lines 201–204):

  `spots = [(int(spot[0]), int(spot[1], int(spot[2]))) for spot in mode(image_mklp)]`

Note the misplaced parenthesis in the source: the second component is the
two-argument call `int(spot[1], int(spot[2]))`.  (The same comprehension
appears again at lines 230–233 for the named blob detectors.)  Each blob is
a `(y, x, sigma)` triple. -/
def normalizeCallableBlobs (blobs : List (ℚ × ℚ × ℚ)) :
    Except PyErr (List (ℤ × ℤ)) :=
  blobs.mapM fun b => (pyIntBase b.2.1 (pyInt b.2.2)).map fun v => (pyInt b.1, v)

/-! ## Tracking backend selection (`_gen_laptrack_tracking`, lines 647–679) -/

/-- Which linking backend class `_gen_laptrack_tracking` instantiates. -/
inductive TrackerVariant where
  | laptrack
  | spatial_laptrack
  deriving DecidableEq, Repr

/-- The configuration built by `_gen_laptrack_tracking`: the backend class
and the numeric arguments passed to it. -/
structure LTConfig where
  variant : TrackerVariant
  track_cost_cutoff : ℚ
  gap_closing_cost_cutoff : ℚ
  gap_closing_max_frame_count : ℕ
  splitting_cost_cutoff : Bool
  merging_cost_cutoff : Bool
  alternative_cost_percentile : ℚ
  deriving DecidableEq, Repr

/-- The `if tracking_method == "laptrack" / elif ... "spatial_laptrack" /
else raise RuntimeError(f"Invalid tracking method ...")` branch of
`_gen_laptrack_tracking` (lines 650–679). -/
def buildTracker (f : Factory) (tracking_method : String) :
    Except String LTConfig :=
  let max_distance := f.mid_body_linking_max_distance
  if tracking_method = "laptrack" then
    .ok { variant := .laptrack
          track_cost_cutoff := max_distance ^ 2
          gap_closing_cost_cutoff := max_distance ^ 2
          gap_closing_max_frame_count := 2
          splitting_cost_cutoff := false
          merging_cost_cutoff := false
          alternative_cost_percentile := 1/100 }
  else if tracking_method = "spatial_laptrack" then
    .ok { variant := .spatial_laptrack
          track_cost_cutoff := max_distance
          gap_closing_cost_cutoff := max_distance
          gap_closing_max_frame_count := 3
          splitting_cost_cutoff := false
          merging_cost_cutoff := false
          alternative_cost_percentile := 100 }
  else
    .error ("Invalid tracking method " ++ tracking_method)

/-- The default of the `tracking_method` parameter of
`generate_tracks_from_spots` (line 539). -/
def generateTracksDefaultMethod : String := "laptrack"

/-- The default of the `mb_tracking_method` parameter of
`update_mid_body_spots` (line 93). -/
def updateMidBodySpotsDefaultMethod : String := "laptrack"

/-! ## Tracks and the mitosis record -/

/-- Modelled from the spec: `MidBodyTrack` lives in `utils/mid_body_track.py`,
which is not among the repository files.  Per the spec a track is "an ordered
collection of Spots indexed by relative frame number (frame → Spot), each
track uniquely identified by an integer id"; it is represented as an
association list in insertion order, whose frame keys are unique. -/
structure MidBodyTrack where
  track_id : ℕ
  spots : List (ℕ × MidBodySpot)
  deriving DecidableEq, Repr

/-- Modelled from the spec: "a track's length is the count of frames with an
assigned spot" (`MidBodyTrack.length` is not among the repository files). -/
def MidBodyTrack.length (t : MidBodyTrack) : ℕ := t.spots.length

/-- Lookup in a Python dict represented as an association list. -/
def dictLookup {α : Type} (d : List (ℕ × α)) (k : ℕ) : Option α :=
  (d.find? fun p => p.1 = k).map Prod.snd

/-- Python dict assignment `d[k] = v`: when the key is present, rebind it in
place (keys of a dict are unique, so at most one entry carries `k`); when it
is absent, append the new binding at the end. -/
def dictInsert {α : Type} (d : List (ℕ × α)) (k : ℕ) (v : α) : List (ℕ × α) :=
  match d with
  | [] => [(k, v)]
  | p :: ps => if p.1 = k then (k, v) :: ps else p :: dictInsert ps k v

/-- The track-length filter of `_select_best_track` (lines 831–835): keep
only tracks with `track.length > minimum_mid_body_track_length`. -/
def lengthFilter (f : Factory) (tracks : List MidBodyTrack) : List MidBodyTrack :=
  tracks.filter fun track => f.minimum_mid_body_track_length < track.length

/-- The fields of `MitosisTrack` (`utils/mitosis_track.py`, an external
collaborator) that `update_mid_body_spots` and `_select_best_track` touch:
the frame range, the bounding-box offset, the key-events frame, and the
`mid_body_spots` output mapping. -/
structure MitosisTrack where
  min_frame : ℕ
  max_frame : ℕ
  key_events_cytokinesis : ℕ
  position_min_x : ℤ
  position_min_y : ℤ
  mid_body_spots : List (ℕ × MidBodySpot)
  deriving DecidableEq, Repr

/-- The writing step of `update_mid_body_spots` (lines 117–123): when no
track was kept, return with no mutation; otherwise write each spot of the
kept track into `mitosis_track.mid_body_spots` at key
`rel_frame + mitosis_track.min_frame`. -/
def updateMidBodySpotsWrite (mitosis_track : MitosisTrack)
    (kept_track : Option MidBodyTrack) : MitosisTrack :=
  match kept_track with
  | none => mitosis_track
  | some t =>
    { mitosis_track with
      mid_body_spots := t.spots.foldl
        (fun d p => dictInsert d (p.1 + mitosis_track.min_frame) p.2)
        mitosis_track.mid_body_spots }

/-! ## The secondary-intensity score of `_select_best_track` (lines 837–869) -/

/-- `abs_track_frames`: the track's relative frames shifted by
`mitosis_track.min_frame` (lines 841–844). -/
def absTrackFrames (min_frame : ℕ) (t : MidBodyTrack) : List ℕ :=
  t.spots.map fun p => p.1 + min_frame

/-- The secondary-channel intensity at a frame of the window: the image value
at the track spot of that frame (lines 859–864).  `image_sir` maps
(relative frame, y, x) to the pixel value. -/
def sirValueAt (image_sir : ℕ → ℤ → ℤ → ℚ) (min_frame : ℕ)
    (t : MidBodyTrack) (frame : ℕ) : ℚ :=
  match dictLookup t.spots (frame - min_frame) with
  | some s => image_sir (frame - min_frame) s.y s.x
  | none => 0

/-- One track's secondary-intensity score, following lines 845–869 of
`_select_best_track`.  The window runs from the cytokinesis key-event frame
`abs_min` to `abs_max = abs_min + cytokinesis_duration / 2` (Python
`int(x / 2)`, i.e. floor for nonnegative values).  The accumulator starts at
`-inf` when the window misses the track's frame range (`abs_track_frames[-1]`
and `[0]`; the source indexes into a nonempty list, modelled with
`getLastD`/`headD`), else `0`; each covered frame adds the image value; a
final coverage check divides by the covered count or sets `-inf`. -/
def sirIntensityScore (f : Factory) (min_frame cyto_frame : ℕ)
    (image_sir : ℕ → ℤ → ℤ → ℚ) (t : MidBodyTrack) : WithBot ℚ :=
  let abs_track_frames := absTrackFrames min_frame t
  let abs_min := cyto_frame
  let abs_max := cyto_frame + f.cytokinesis_duration / 2
  let init : WithBot ℚ :=
    if abs_track_frames.getLastD 0 < abs_min ∨ abs_max < abs_track_frames.headD 0
    then ⊥ else 0
  let r := (List.range' abs_min (abs_max - abs_min + 1)).foldl
    (fun (acc : WithBot ℚ × ℕ) frame =>
      if frame ∈ abs_track_frames then
        (acc.1 + ((sirValueAt image_sir min_frame t frame : ℚ) : WithBot ℚ),
         acc.2 + 1)
      else acc)
    (init, 0)
  if (r.2 : ℚ) < ((abs_max - abs_min + 1 : ℕ) : ℚ) / 2 then ⊥
  else r.1.map (· / (r.2 : ℚ))

/-- The frames of the intensity window, `range(abs_min, abs_max + 1)`. -/
def windowFrames (f : Factory) (cyto_frame : ℕ) : List ℕ :=
  List.range' cyto_frame (f.cytokinesis_duration / 2 + 1)

/-- The frames of the window that carry a spot of the track. -/
def coveredFrames (f : Factory) (min_frame cyto_frame : ℕ)
    (t : MidBodyTrack) : List ℕ :=
  (windowFrames f cyto_frame).filter fun frame => frame ∈ absTrackFrames min_frame t

/-! ## The final ranking of `_select_best_track` (lines 883–899) -/

/-- `func_sir_intensity`: a track's combined score
`expected_distance − 0.5 × sir_intensity`, in the arithmetic of numpy floats:
the expected distance lives in `ℝ ∪ {+inf}` (`WithTop ℚ`), the mean
secondary intensity in `ℝ ∪ {−inf}` (`WithBot ℚ`), and
`a − 0.5 × b` is `+inf` when `a = +inf` or `b = −inf`. -/
def selectorScore (a : WithTop ℚ) (b : WithBot ℚ) : WithTop ℚ :=
  WithTop.recTopCoe ⊤
    (fun qa => WithBot.recBotCoe ⊤
      (fun qb => ((qa - qb / 2 : ℚ) : WithTop ℚ)) b) a

/-- The tail of `_select_best_track` (lines 889–899): each candidate track is
paired with its expected distance and its secondary-intensity score; tracks
whose combined score is infinite are dropped, the rest are sorted by score,
and the first of the sorted list is returned (`None` when the list is
empty). -/
def selectBestTrackFinal
    (items : List (MidBodyTrack × WithTop ℚ × WithBot ℚ)) : Option MidBodyTrack :=
  let final_tracks := items.filter fun it => selectorScore it.2.1 it.2.2 ≠ ⊤
  let sorted_tracks := final_tracks.mergeSort fun x y =>
    decide (selectorScore x.2.1 x.2.2 ≤ selectorScore y.2.1 y.2.2)
  sorted_tracks.head?.map Prod.fst

/-! ## Link costs (`_update_spots_hereditary`, lines 472–532, and
`dist_metric`, lines 601–643) -/

/-- Modelled from the spec: `MidBodySpot.distance_to` lives in
`utils/mid_body_spot.py`, which is not among the repository files; the spec's
spatial term is the "Euclidean distance between positions". -/
noncomputable def distance_to (s1 s2 : MidBodySpot) : ℝ :=
  Real.sqrt ((((s1.x - s2.x : ℤ)) : ℝ) ^ 2 + (((s1.y - s2.y : ℤ)) : ℝ) ^ 2)

/-- The relative intensity difference penalty `3 * w * |i1 - i2| / (i1 + i2)`
of `_update_spots_hereditary` (lines 490–501) and `dist_metric`
(lines 624–634). -/
def intensityPenalty (w i1 i2 : ℚ) : ℚ :=
  3 * w * |i1 - i2| / (i1 + i2)

/-- `penalty = 1 + intensity_penalty + sir_intensity_penalty` (line 502). -/
def pairPenalty (f : Factory) (s1 s2 : MidBodySpot) : ℚ :=
  1 + intensityPenalty f.weight_mklp_intensity_factor
        (s1.intensity : ℚ) (s2.intensity : ℚ)
    + intensityPenalty f.weight_sir_intensity_factor
        (s1.sir_intensity : ℚ) (s2.sir_intensity : ℚ)

/-- One entry of the frame-to-frame cost matrix (lines 503–509): `np.inf`
when the spatial distance exceeds the maximum linking distance, else
`(penalty * distance) ** 1` — the source deliberately removes the square
("Compared to original TrackMate algorithm, remove square to penalize no
attribution to the closest spot"). -/
noncomputable def pairCost (f : Factory) (s1 s2 : MidBodySpot) : EReal :=
  if (f.mid_body_linking_max_distance : ℝ) < distance_to s1 s2 then ⊤
  else (((pairPenalty f s1 s2 : ℝ) * distance_to s1 s2 : ℝ) : EReal)

/-- One row of the dataframe handed to LapTrack: `(x, y, mlkp_intensity,
sir_intensity)`, or `none` for the all-NaN placeholder row recorded for an
empty frame (lines 580–597). -/
def SpotRow : Type := Option (ℚ × ℚ × ℚ × ℚ)

/-- The dataframe row of a detected spot (lines 590–597). -/
def rowOf (s : MidBodySpot) : SpotRow :=
  some ((s.x : ℚ), (s.y : ℚ), (s.intensity : ℚ), (s.sir_intensity : ℚ))

/-- Euclidean distance of two planar rational points
(`distance.euclidean([x1, y1], [x2, y2])`). -/
noncomputable def euclidean (x1 y1 x2 y2 : ℚ) : ℝ :=
  Real.sqrt ((((x1 - x2 : ℚ)) : ℝ) ^ 2 + (((y1 - y2 : ℚ)) : ℝ) ^ 2)

/-- `dist_metric` (lines 601–643): a connection to a NaN placeholder row is
invalidated with `2 * max_distance`; otherwise the square of the product of
the Euclidean spatial distance and the intensity penalty
`1 + sir_penalty + mkpl_penalty`. -/
noncomputable def dist_metric (f : Factory) (c1 c2 : SpotRow) : ℝ :=
  match c1, c2 with
  | some (x1, y1, mlkp1, sir1), some (x2, y2, mlkp2, sir2) =>
    (euclidean x1 y1 x2 y2 *
      ((1 + intensityPenalty f.weight_sir_intensity_factor sir1 sir2
          + intensityPenalty f.weight_mklp_intensity_factor mlkp1 mlkp2 : ℚ) : ℝ)) ^ 2
  | _, _ => ((2 * f.mid_body_linking_max_distance : ℚ) : ℝ)

/-! ## The frame-to-frame cost matrix (`_update_spots_hereditary`) -/

open Classical

/-- A default spot for in-range list indexing. -/
def dummySpot : MidBodySpot := ⟨0, 0, 0, 0, 0⟩

/-- One imperative write `cost_matrix[i, j] = v`. -/
def matWrite (m : ℕ → ℕ → EReal) (i j : ℕ) (v : EReal) : ℕ → ℕ → EReal :=
  fun i' j' => if i' = i ∧ j' = j then v else m i' j'

/-- The row-major index pairs of the double loop
`for i, spot1 in enumerate(spots1): for j, spot2 in enumerate(spots2)`. -/
def loopPairs (n m : ℕ) : List (ℕ × ℕ) :=
  (List.range n).flatMap fun i => (List.range m).map fun j => (i, j)

/-- The matrix state after the double loop of lines 488–509: `np.zeros` with
the top-left `N × M` block written cell by cell. -/
noncomputable def loopMatrix (f : Factory) (spots1 spots2 : List MidBodySpot) :
    ℕ → ℕ → EReal :=
  (loopPairs spots1.length spots2.length).foldl
    (fun m p => matWrite m p.1 p.2
      (pairCost f (spots1.getD p.1 dummySpot) (spots2.getD p.2 dummySpot)))
    fun _ _ => 0

/-- The running `max_cost` of the double loop (lines 487–509): updated only
in the branch where the distance does not exceed the maximum. -/
noncomputable def maxCostLoop (f : Factory) (spots1 spots2 : List MidBodySpot) : ℝ :=
  (loopPairs spots1.length spots2.length).foldl
    (fun acc p =>
      if (f.mid_body_linking_max_distance : ℝ)
          < distance_to (spots1.getD p.1 dummySpot) (spots2.getD p.2 dummySpot)
      then acc
      else max acc ((pairPenalty f (spots1.getD p.1 dummySpot)
          (spots2.getD p.2 dummySpot) : ℝ)
        * distance_to (spots1.getD p.1 dummySpot) (spots2.getD p.2 dummySpot)))
    0

/-- The entries of a square matrix of side `n`, row-major. -/
noncomputable def entriesList (m : ℕ → ℕ → EReal) (n : ℕ) : List EReal :=
  (loopPairs n n).map fun p => m p.1 p.2

/-- `min_cost` (lines 511–515): `0` when `np.max(cost_matrix) == 0`, else
`np.min(cost_matrix[np.nonzero(cost_matrix)])`, both read off the matrix
state before the padding blocks are written. -/
noncomputable def minCostVal (f : Factory) (spots1 spots2 : List MidBodySpot) :
    EReal :=
  let mid := loopMatrix f spots1 spots2
  let n := spots1.length + spots2.length
  if (entriesList mid n).foldl max ⊥ = 0 then 0
  else ((entriesList mid n).filter fun e => e ≠ 0).foldl min ⊤

/-- A write of one value into a whole index region, `cost_matrix[r, c] = v`
for a rectangular slice. -/
noncomputable def regionWrite (m : ℕ → ℕ → EReal) (P : ℕ → ℕ → Prop)
    (v : EReal) : ℕ → ℕ → EReal :=
  fun i j => if P i j then v else m i j

/-- The final frame-to-frame cost matrix of `_update_spots_hereditary`
(lines 482–523), for nonempty spot lists: the loop fills the top-left block
of an `(N+M) × (N+M)` zero matrix, then the three slice assignments write
`max_cost * 1.05` into the bottom-left (`[N:, :M]`) and top-right
(`[:N, M:]`) blocks and `min_cost` into the bottom-right (`[N:, M:]`)
block. -/
noncomputable def costMatrix (f : Factory) (spots1 spots2 : List MidBodySpot) :
    ℕ → ℕ → EReal :=
  let N := spots1.length
  let M := spots2.length
  regionWrite
    (regionWrite
      (regionWrite (loopMatrix f spots1 spots2)
        (fun i j => N ≤ i ∧ j < M)
        ((maxCostLoop f spots1 spots2 * 1.05 : ℝ) : EReal))
      (fun i j => i < N ∧ M ≤ j)
      ((maxCostLoop f spots1 spots2 * 1.05 : ℝ) : EReal))
    (fun i j => N ≤ i ∧ M ≤ j)
    (minCostVal f spots1 spots2)

/-- All pairwise costs of two spot lists, in loop order. -/
noncomputable def pairwiseCosts (f : Factory)
    (spots1 spots2 : List MidBodySpot) : List EReal :=
  (loopPairs spots1.length spots2.length).map fun p =>
    pairCost f (spots1.getD p.1 dummySpot) (spots2.getD p.2 dummySpot)

/-- The maximum finite pairwise cost (`0` when there is none). -/
noncomputable def maxFiniteCost (f : Factory)
    (spots1 spots2 : List MidBodySpot) : ℝ :=
  ((pairwiseCosts f spots1 spots2).filterMap fun e =>
    if e = ⊤ then none else some e.toReal).foldl max 0

/-- The minimum nonzero pairwise cost, `0` when every pairwise cost is 0. -/
noncomputable def minNonzeroCost (f : Factory)
    (spots1 spots2 : List MidBodySpot) : EReal :=
  if ∀ c ∈ pairwiseCosts f spots1 spots2, c = 0 then 0
  else ((pairwiseCosts f spots1 spots2).filter fun c => c ≠ 0).foldl min ⊤

/-! ## Theorems -/

/-- C2 (code bug): the spec promises every named built-in strategy
(`bigfish`, `h_maxima`, `cur_log`, `lapgau`, `log2_wider`,
`shifted_centered_log`, `cur_dog`, `diffgau`, `cur_doh`, `hessian`) is
selectable by its string identifier without error, and that `UnknownStrategy`
is raised exactly for unrecognized names.  In the code, the missing comma in
the membership list makes `"diffgau"` and `"cur_doh"` fall through to the
`ValueError` branch, and `"shifted_centered_log"` passes the membership test
but is absent from the `mapping` dict, raising `KeyError`; the remaining
names dispatch as promised. -/
theorem c2_builtin_dispatch_code_bug :
    spotDetectionDispatch (.name "diffgau")
      = .error (.valueError "Unknown mode: diffgau") ∧
    spotDetectionDispatch (.name "cur_doh")
      = .error (.valueError "Unknown mode: cur_doh") ∧
    spotDetectionDispatch (.name "shifted_centered_log")
      = .error (.keyError "shifted_centered_log") ∧
    spotDetectionDispatch (.name "lapgau") = .ok (.blobDetector "lapgau") ∧
    spotDetectionDispatch (.name "cur_log") = .ok (.blobDetector "current_log") ∧
    spotDetectionDispatch (.name "bigfish") = .ok .bigfishPath ∧
    spotDetectionDispatch (.name "h_maxima") = .ok .hMaximaPath ∧
    spotDetectionDispatch (.name "no_such_strategy")
      = .error (.valueError "Unknown mode: no_such_strategy") := by
  exact ⟨rfl, rfl, rfl, rfl, rfl, rfl, rfl, rfl⟩

/-- C3 (counterexample): the claim says the default value of the
tracking-method parameter selects the spatially-aware variant; in the code
both defaults are `"laptrack"`, which instantiates the basic `LapTrack`
backend, not `SpatialLapTrack`. -/
theorem c3_default_method_counterexample :
    (buildTracker (defaultFactory 20) generateTracksDefaultMethod).map
        LTConfig.variant = .ok TrackerVariant.laptrack ∧
    TrackerVariant.laptrack ≠ TrackerVariant.spatial_laptrack := by
  exact ⟨rfl, by decide⟩

/-- C3 (amended): when no linking-method name is given, the Track Builder
defaults to the basic `laptrack` variant (both the
`generate_tracks_from_spots` and the `update_mid_body_spots` defaults are
`"laptrack"`), not the spatially-aware one. -/
theorem c3_default_method_is_basic (f : Factory) :
    generateTracksDefaultMethod = "laptrack" ∧
    updateMidBodySpotsDefaultMethod = "laptrack" ∧
    (buildTracker f generateTracksDefaultMethod).map LTConfig.variant
      = .ok TrackerVariant.laptrack ∧
    (buildTracker f generateTracksDefaultMethod).map LTConfig.variant
      ≠ .ok TrackerVariant.spatial_laptrack := by
  refine ⟨rfl, rfl, rfl, ?_⟩
  simp [buildTracker, generateTracksDefaultMethod, Except.map]

/-- C4 (code bug): the spec promises that an externally supplied callable
strategy returning blobs is normalized into Spots without error; in the code
the comprehension `(int(spot[0]), int(spot[1], int(spot[2])))` calls the
two-argument `int(x, base)` on a numeric value, so it raises `TypeError` as
soon as the callable returns at least one blob.  Shown here at the concrete
blob list `[(10, 20, 3)]`. -/
theorem c4_callable_normalization_raises :
    normalizeCallableBlobs [(10, 20, 3)]
      = .error (.typeError "int() can't convert non-string with explicit base") ∧
    ∀ blobs : List (ℚ × ℚ × ℚ), blobs ≠ [] →
      normalizeCallableBlobs blobs
        = .error (.typeError "int() can't convert non-string with explicit base") := by
  refine ⟨rfl, fun blobs h => ?_⟩
  cases blobs with
  | nil => exact absurd rfl h
  | cons b bs => rfl

theorem dictLookup_dictInsert_self {α : Type} (d : List (ℕ × α)) (k : ℕ) (v : α) :
    dictLookup (dictInsert d k v) k = some v := by
  induction d with
  | nil => simp [dictLookup, dictInsert]
  | cons p ps ih =>
    by_cases hp : p.1 = k
    · simp [dictLookup, dictInsert, hp, List.find?_cons]
    · simp only [dictInsert, if_neg hp]
      simp only [dictLookup, List.find?_cons] at ih ⊢
      rw [show (decide (p.1 = k) : Bool) = false by simp [hp]]
      exact ih

theorem dictLookup_dictInsert_ne {α : Type} (d : List (ℕ × α)) (k k' : ℕ) (v : α)
    (hne : k' ≠ k) : dictLookup (dictInsert d k v) k' = dictLookup d k' := by
  induction d with
  | nil => simp [dictLookup, dictInsert, List.find?_cons, Ne.symm hne]
  | cons p ps ih =>
    by_cases hp : p.1 = k
    · simp only [dictInsert, if_pos hp]
      simp only [dictLookup, List.find?_cons]
      rw [show (decide ((k, v).1 = k') : Bool) = false by simp [Ne.symm hne],
        show (decide (p.1 = k') : Bool) = false by simp [hp ▸ Ne.symm hne]]
    · simp only [dictInsert, if_neg hp]
      by_cases hp' : p.1 = k'
      · simp [dictLookup, List.find?_cons, hp']
      · simp only [dictLookup, List.find?_cons] at ih ⊢
        rw [show (decide (p.1 = k') : Bool) = false by simp [hp']]
        exact ih

/-- The fold of dict writes performed by `updateMidBodySpotsWrite`. -/
theorem dictLookup_writeAll_untouched {α : Type} (l : List (ℕ × α))
    (d : List (ℕ × α)) (off k : ℕ) (h : ∀ p ∈ l, p.1 + off ≠ k) :
    dictLookup (l.foldl (fun d p => dictInsert d (p.1 + off) p.2) d) k
      = dictLookup d k := by
  induction l generalizing d with
  | nil => rfl
  | cons q qs ih =>
    simp only [List.foldl_cons]
    rw [ih _ fun p hp => h p (List.mem_cons_of_mem _ hp)]
    exact dictLookup_dictInsert_ne _ _ _ _ fun hk =>
      h q (List.mem_cons_self _ _) hk.symm

theorem dictLookup_writeAll_mem {α : Type} (l : List (ℕ × α))
    (d : List (ℕ × α)) (off rf : ℕ) (s : α)
    (hnodup : (l.map Prod.fst).Nodup) (hmem : (rf, s) ∈ l) :
    dictLookup (l.foldl (fun d p => dictInsert d (p.1 + off) p.2) d) (rf + off)
      = some s := by
  induction l generalizing d with
  | nil => cases hmem
  | cons q qs ih =>
    simp only [List.map_cons, List.nodup_cons] at hnodup
    rcases List.mem_cons.mp hmem with hq | hqs
    · subst hq
      simp only [List.foldl_cons]
      rw [dictLookup_writeAll_untouched _ _ _ _ ?_]
      · exact dictLookup_dictInsert_self _ _ _
      · intro p hp hk
        exact hnodup.1 (List.mem_map.mpr ⟨p, hp, by omega⟩)
    · simp only [List.foldl_cons]
      exact ih _ hnodup.2 hqs

/-- C9: the Selector discards exactly the candidate tracks whose length is at
most the configured minimum track length before any scoring: a track passes
the filter if and only if it was among the candidates and its length exceeds
the minimum.  The minimum defaults to 10 in
`MidBodyDetectionFactory.__init__`. -/
theorem c9_length_filter_exact (f : Factory) (tracks : List MidBodyTrack)
    (t : MidBodyTrack) :
    (t ∈ lengthFilter f tracks ↔
      t ∈ tracks ∧ f.minimum_mid_body_track_length < t.length) ∧
    ∀ d : ℕ, (defaultFactory d).minimum_mid_body_track_length = 10 := by
  refine ⟨?_, fun d => rfl⟩
  simp [lengthFilter]

/-- C10: if no track is selected, the Assembler leaves the mitosis record
entirely unmodified; if a track is selected, the only field it mutates is
`mid_body_spots`, where each spot of the kept track is written at key
`relative frame + min_frame`, keys not of that form keeping their previous
binding. -/
theorem c10_assembler_write (mt : MitosisTrack) (kept : Option MidBodyTrack) :
    (kept = none → updateMidBodySpotsWrite mt kept = mt) ∧
    (∀ t, kept = some t →
      (updateMidBodySpotsWrite mt kept).min_frame = mt.min_frame ∧
      (updateMidBodySpotsWrite mt kept).max_frame = mt.max_frame ∧
      (updateMidBodySpotsWrite mt kept).key_events_cytokinesis
        = mt.key_events_cytokinesis ∧
      (updateMidBodySpotsWrite mt kept).position_min_x = mt.position_min_x ∧
      (updateMidBodySpotsWrite mt kept).position_min_y = mt.position_min_y ∧
      ((t.spots.map Prod.fst).Nodup → ∀ rf s, (rf, s) ∈ t.spots →
        dictLookup (updateMidBodySpotsWrite mt kept).mid_body_spots
          (rf + mt.min_frame) = some s) ∧
      (∀ k, (∀ p ∈ t.spots, p.1 + mt.min_frame ≠ k) →
        dictLookup (updateMidBodySpotsWrite mt kept).mid_body_spots k
          = dictLookup mt.mid_body_spots k)) := by
  constructor
  · rintro rfl; rfl
  · rintro t rfl
    refine ⟨rfl, rfl, rfl, rfl, rfl, ?_, ?_⟩
    · intro hnodup rf s hmem
      exact dictLookup_writeAll_mem _ _ _ _ _ hnodup hmem
    · intro k hk
      exact dictLookup_writeAll_untouched _ _ _ _ hk

/-- The head of a merge-sorted list is a minimum of the original list. -/
theorem mergeSort_head_min {α : Type} (le : α → α → Bool)
    (htrans : ∀ a b c, le a b = true → le b c = true → le a c = true)
    (htotal : ∀ a b, (le a b || le b a) = true)
    (l : List α) (x : α) (hx : (l.mergeSort le).head? = some x) :
    x ∈ l ∧ ∀ y ∈ l, le x y = true := by
  have hperm := List.mergeSort_perm l le
  have hsorted := List.sorted_mergeSort htrans htotal l
  cases hms : l.mergeSort le with
  | nil => rw [hms] at hx; cases hx
  | cons a as =>
    rw [hms] at hx hperm hsorted
    have hax : a = x := by simpa using hx
    subst hax
    refine ⟨hperm.subset (List.mem_cons_self _ _), fun y hy => ?_⟩
    rcases List.mem_cons.mp (hperm.mem_iff.mpr hy) with h | h
    · subst h
      have := htotal y y
      simpa using this
    · exact (List.pairwise_cons.mp hsorted).1 y h

/-- C7: in the final ranking of `_select_best_track`, each surviving track's
score is `expected_distance − 0.5 × mean_secondary_intensity` (infinite when
the expected distance is infinite or the intensity score is `−inf`); tracks
with infinite score are excluded; the returned track is a surviving one of
minimal score, and `none` is returned exactly when no track survives. -/
theorem c7_final_ranking (items : List (MidBodyTrack × WithTop ℚ × WithBot ℚ)) :
    (∀ qa qb : ℚ, selectorScore (qa : ℚ) ((qb : ℚ) : WithBot ℚ)
        = ((qa - qb / 2 : ℚ) : WithTop ℚ)) ∧
    (∀ qa : ℚ, selectorScore (qa : ℚ) ⊥ = ⊤) ∧
    (∀ b, selectorScore ⊤ b = ⊤) ∧
    (selectBestTrackFinal items = none ↔
      ∀ it ∈ items, selectorScore it.2.1 it.2.2 = ⊤) ∧
    (∀ t, selectBestTrackFinal items = some t →
      ∃ it ∈ items, it.1 = t ∧ selectorScore it.2.1 it.2.2 ≠ ⊤ ∧
        ∀ it' ∈ items, selectorScore it'.2.1 it'.2.2 ≠ ⊤ →
          selectorScore it.2.1 it.2.2 ≤ selectorScore it'.2.1 it'.2.2) := by
  refine ⟨fun qa qb => by simp [selectorScore], fun qa => by simp [selectorScore],
    fun b => by simp [selectorScore], ?_, ?_⟩
  · constructor
    · intro h it hit
      by_contra hne
      have hmem : it ∈ items.filter
          (fun it => selectorScore it.2.1 it.2.2 ≠ ⊤) :=
        List.mem_filter.mpr ⟨hit, by simpa using hne⟩
      have hnil : (items.filter
          (fun it => selectorScore it.2.1 it.2.2 ≠ ⊤)).mergeSort
            (fun x y =>
              decide (selectorScore x.2.1 x.2.2 ≤ selectorScore y.2.1 y.2.2))
          = [] := by
        simp only [selectBestTrackFinal] at h
        cases hms : (items.filter
            (fun it => selectorScore it.2.1 it.2.2 ≠ ⊤)).mergeSort
              (fun x y =>
                decide (selectorScore x.2.1 x.2.2 ≤ selectorScore y.2.1 y.2.2)) with
        | nil => rfl
        | cons a as => rw [hms] at h; cases h
      have hempty : items.filter (fun it => selectorScore it.2.1 it.2.2 ≠ ⊤) = [] :=
        List.eq_nil_of_length_eq_zero (by
          have hl := (List.mergeSort_perm (items.filter
            (fun it => selectorScore it.2.1 it.2.2 ≠ ⊤))
            (fun x y =>
              decide (selectorScore x.2.1 x.2.2 ≤ selectorScore y.2.1 y.2.2))).length_eq
          rw [hnil] at hl
          exact hl.symm)
      rw [hempty] at hmem
      cases hmem
    · intro h
      have hempty : items.filter (fun it => selectorScore it.2.1 it.2.2 ≠ ⊤) = [] := by
        rw [List.filter_eq_nil_iff]
        intro it hit
        simpa using h it hit
      simp only [selectBestTrackFinal]
      rw [hempty, List.mergeSort_nil]
      rfl
  · intro t ht
    simp only [selectBestTrackFinal] at ht
    set le : (MidBodyTrack × WithTop ℚ × WithBot ℚ) →
        (MidBodyTrack × WithTop ℚ × WithBot ℚ) → Bool :=
      fun x y => decide (selectorScore x.2.1 x.2.2 ≤ selectorScore y.2.1 y.2.2)
      with hle
    set final := items.filter (fun it => selectorScore it.2.1 it.2.2 ≠ ⊤)
      with hfinal
    rcases Option.map_eq_some'.mp ht with ⟨it0, hit0, hfst⟩
    have hmin := mergeSort_head_min le
      (fun a b c hab hbc => by
        simp only [hle, decide_eq_true_eq] at hab hbc ⊢
        exact le_trans hab hbc)
      (fun a b => by
        simp only [hle, Bool.or_eq_true, decide_eq_true_eq]
        exact le_total _ _)
      final it0 hit0
    have hit0final : it0 ∈ final := hmin.1
    have hit0items := (List.mem_filter.mp hit0final).1
    have hit0ne : selectorScore it0.2.1 it0.2.2 ≠ ⊤ := by
      have := (List.mem_filter.mp hit0final).2
      simpa using this
    refine ⟨it0, hit0items, hfst, hit0ne, fun it' hit' hne' => ?_⟩
    have hit'final : it' ∈ final :=
      List.mem_filter.mpr ⟨hit', by simpa using hne'⟩
    have := hmin.2 it' hit'final
    simpa [hle, decide_eq_true_eq] using this

/-- The accumulation loop of the secondary-intensity score: starting from
`(s0, c0)`, it adds the intensity of every frame carrying a track spot and
counts those frames. -/
theorem sirLoop_foldl (image_sir : ℕ → ℤ → ℤ → ℚ) (min_frame : ℕ)
    (t : MidBodyTrack) (frames : List ℕ) (s0 : WithBot ℚ) (c0 : ℕ) :
    frames.foldl
      (fun (acc : WithBot ℚ × ℕ) frame =>
        if frame ∈ absTrackFrames min_frame t then
          (acc.1 + ((sirValueAt image_sir min_frame t frame : ℚ) : WithBot ℚ),
           acc.2 + 1)
        else acc)
      (s0, c0)
    = (s0 + (((frames.filter fun fr => fr ∈ absTrackFrames min_frame t).map
          (sirValueAt image_sir min_frame t)).sum : ℚ),
       c0 + (frames.filter fun fr => fr ∈ absTrackFrames min_frame t).length) := by
  induction frames generalizing s0 c0 with
  | nil => simp
  | cons fr frs ih =>
    by_cases hfr : fr ∈ absTrackFrames min_frame t
    · rw [List.foldl_cons, if_pos hfr, ih]
      have hfil : (fr :: frs).filter (fun x => x ∈ absTrackFrames min_frame t)
          = fr :: frs.filter (fun x => x ∈ absTrackFrames min_frame t) := by
        simp [List.filter_cons, hfr]
      rw [hfil]
      simp only [List.map_cons, List.sum_cons, List.length_cons, Prod.mk.injEq]
      constructor
      · push_cast
        rw [add_assoc]
      · omega
    · rw [List.foldl_cons, if_neg hfr, ih]
      have hfil : (fr :: frs).filter (fun x => x ∈ absTrackFrames min_frame t)
          = frs.filter (fun x => x ∈ absTrackFrames min_frame t) := by
        simp [List.filter_cons, hfr]
      rw [hfil]

theorem sorted_le_getLastD (l : List ℕ) (hs : List.Sorted (· ≤ ·) l) (x : ℕ)
    (hx : x ∈ l) (d : ℕ) : x ≤ l.getLastD d := by
  induction l generalizing d with
  | nil => cases hx
  | cons a as ih =>
    rw [List.getLastD_cons]
    rcases List.mem_cons.mp hx with h | h
    · subst h
      rcases List.mem_cons.mp (List.getLastD_mem_cons as x) with h2 | h2
      · exact le_of_eq h2.symm
      · exact (List.pairwise_cons.mp hs).1 _ h2
    · exact ih hs.of_cons h _

theorem sorted_headD_le (l : List ℕ) (hs : List.Sorted (· ≤ ·) l) (x : ℕ)
    (hx : x ∈ l) : l.headD 0 ≤ x := by
  cases l with
  | nil => cases hx
  | cons a as =>
    rcases List.mem_cons.mp hx with h | h
    · simp [h]
    · exact (List.pairwise_cons.mp hs).1 x h

/-- C8: for a candidate track (nonempty, frames in increasing order as the
Track Builder produces them), the secondary-intensity score is `−inf` when
fewer than half of the frames of the window
`[cytokinesis frame, cytokinesis frame + duration/2]` carry a spot of the
track, and otherwise the mean of the secondary-channel image values at the
track's spot locations over the covered frames of the window. -/
theorem c8_sir_intensity_score (f : Factory) (min_frame cyto_frame : ℕ)
    (image_sir : ℕ → ℤ → ℤ → ℚ) (t : MidBodyTrack)
    (hne : t.spots ≠ [])
    (hsorted : List.Sorted (· ≤ ·) (t.spots.map Prod.fst)) :
    sirIntensityScore f min_frame cyto_frame image_sir t =
      if 2 * (coveredFrames f min_frame cyto_frame t).length
          < f.cytokinesis_duration / 2 + 1 then ⊥
      else ((((coveredFrames f min_frame cyto_frame t).map
          (sirValueAt image_sir min_frame t)).sum
            / ((coveredFrames f min_frame cyto_frame t).length : ℚ) : ℚ) :
              WithBot ℚ) := by
  have habs_sorted : List.Sorted (· ≤ ·) (absTrackFrames min_frame t) := by
    have : absTrackFrames min_frame t
        = (t.spots.map Prod.fst).map (· + min_frame) := by
      simp [absTrackFrames, List.map_map]
    rw [this, List.Sorted]
    rw [List.pairwise_map]
    exact hsorted.imp fun h => Nat.add_le_add_right h min_frame
  have habs_ne : absTrackFrames min_frame t ≠ [] := by
    simp [absTrackFrames, hne]
  have hwin : cyto_frame + f.cytokinesis_duration / 2 - cyto_frame + 1
      = f.cytokinesis_duration / 2 + 1 := by omega
  have hrange : List.range' cyto_frame (f.cytokinesis_duration / 2 + 1)
      = windowFrames f cyto_frame := rfl
  have hfc : (windowFrames f cyto_frame).filter
      (fun fr => fr ∈ absTrackFrames min_frame t)
      = coveredFrames f min_frame cyto_frame t := rfl
  simp only [sirIntensityScore, hwin]
  rw [sirLoop_foldl, hrange, hfc]
  dsimp only
  by_cases hinit :
      (absTrackFrames min_frame t).getLastD 0 < cyto_frame ∨
      cyto_frame + f.cytokinesis_duration / 2
        < (absTrackFrames min_frame t).headD 0
  · -- the window misses the track's frame range entirely: no frame is covered
    have hcov : coveredFrames f min_frame cyto_frame t = [] := by
      rw [coveredFrames, List.filter_eq_nil_iff]
      intro fr hfr
      simp only [decide_eq_true_eq]
      intro hmem
      have h1 := sorted_le_getLastD _ habs_sorted fr hmem 0
      have h2 := sorted_headD_le _ habs_sorted fr hmem
      have h3 : cyto_frame ≤ fr ∧
          fr < cyto_frame + (f.cytokinesis_duration / 2 + 1) :=
        List.mem_range'_1.mp hfr
      rcases hinit with h | h <;> omega
    rw [if_pos hinit, hcov]
    simp only [List.length_nil, List.map_nil, List.sum_nil, Nat.add_zero,
      Nat.mul_zero, Nat.cast_zero]
    rw [if_pos, if_pos]
    · exact Nat.succ_pos _
    · have hL : (0 : ℚ) < ((f.cytokinesis_duration / 2 + 1 : ℕ) : ℚ) := by
        exact_mod_cast Nat.succ_pos _
      linarith
  · rw [if_neg hinit]
    set n := (coveredFrames f min_frame cyto_frame t).length with hn
    set S := ((coveredFrames f min_frame cyto_frame t).map
        (sirValueAt image_sir min_frame t)).sum with hS
    have hcond : (((0 + n : ℕ)) : ℚ)
          < ((f.cytokinesis_duration / 2 + 1 : ℕ) : ℚ) / 2
        ↔ 2 * n < f.cytokinesis_duration / 2 + 1 := by
      rw [Nat.zero_add, lt_div_iff₀ (by norm_num : (0:ℚ) < 2)]
      rw [show (n : ℚ) * 2 = ((2 * n : ℕ) : ℚ) by push_cast; ring]
      exact Nat.cast_lt
    have hval : ((0 : WithBot ℚ) + (S : ℚ)).map (· / (((0 + n : ℕ)) : ℚ))
        = ((S / (n : ℚ) : ℚ) : WithBot ℚ) := by
      rw [zero_add, zero_add]
      rfl
    exact if_congr hcond rfl hval

/-- Witness for C8 at a concrete input: duration 4 gives the window
`[5, 7]`; a track covering frames 5 and 6 of a constant image of value 10
covers 2 of the 3 window frames (at least half), so its score is the mean
10. -/
theorem c8_sir_intensity_score_witness :
    sirIntensityScore (defaultFactory 4) 0 5 (fun _ _ _ => 10)
      ⟨1, [(5, ⟨5, 2, 3, 7, 8⟩), (6, ⟨6, 2, 3, 7, 8⟩)]⟩
      = ((10 : ℚ) : WithBot ℚ) := by
  rw [c8_sir_intensity_score (defaultFactory 4) 0 5 (fun _ _ _ => 10)
    ⟨1, [(5, ⟨5, 2, 3, 7, 8⟩), (6, ⟨6, 2, 3, 7, 8⟩)]⟩ (by decide) (by decide)]
  norm_num [coveredFrames, windowFrames, absTrackFrames, sirValueAt,
    dictLookup, defaultFactory, List.range']

/-- For spots on one horizontal line the Euclidean distance is the absolute
x-difference. -/
theorem distance_to_horizontal (s1 s2 : MidBodySpot) (h : s1.y = s2.y) :
    distance_to s1 s2 = |((s1.x - s2.x : ℤ) : ℝ)| := by
  rw [distance_to, h, sub_self]
  norm_num
  exact Real.sqrt_sq_eq_abs _

/-- The planar Euclidean distance of two dataframe rows agrees with the
spot-level distance. -/
theorem euclidean_rowOf (s1 s2 : MidBodySpot) :
    euclidean (s1.x : ℚ) (s1.y : ℚ) (s2.x : ℚ) (s2.y : ℚ) = distance_to s1 s2 := by
  rw [euclidean, distance_to]
  congr 1
  push_cast
  ring

/-- `dist_metric` on two detected-spot rows, in terms of the spot-level
distance and penalty. -/
theorem dist_metric_rowOf (f : Factory) (s1 s2 : MidBodySpot) :
    dist_metric f (rowOf s1) (rowOf s2)
      = (distance_to s1 s2 * ((pairPenalty f s1 s2 : ℚ) : ℝ)) ^ 2 := by
  show (euclidean (s1.x : ℚ) (s1.y : ℚ) (s2.x : ℚ) (s2.y : ℚ) *
      ((1 + intensityPenalty f.weight_sir_intensity_factor
          (s1.sir_intensity : ℚ) (s2.sir_intensity : ℚ)
        + intensityPenalty f.weight_mklp_intensity_factor
          (s1.intensity : ℚ) (s2.intensity : ℚ) : ℚ) : ℝ)) ^ 2 = _
  rw [euclidean_rowOf]
  congr 2
  rw [pairPenalty]
  push_cast
  ring

/-- C1 (counterexample): two spots at distance 2 with equal intensities lie
within the default maximum linking distance, yet their frame-to-frame matrix
cost is `penalty * distance = 2`, not the squared value
`(distance * penalty)^2 = 4` the claim asserts for both code paths. -/
theorem c1_squared_formula_counterexample :
    distance_to ⟨0, 0, 0, 10, 10⟩ ⟨0, 2, 0, 10, 10⟩
      ≤ ((defaultFactory 20).mid_body_linking_max_distance : ℝ) ∧
    pairCost (defaultFactory 20) ⟨0, 0, 0, 10, 10⟩ ⟨0, 2, 0, 10, 10⟩
      ≠ (((distance_to ⟨0, 0, 0, 10, 10⟩ ⟨0, 2, 0, 10, 10⟩ *
          ((pairPenalty (defaultFactory 20) ⟨0, 0, 0, 10, 10⟩
            ⟨0, 2, 0, 10, 10⟩ : ℚ) : ℝ)) ^ 2 : ℝ) : EReal) := by
  have hd : distance_to ⟨0, 0, 0, 10, 10⟩ ⟨0, 2, 0, 10, 10⟩ = 2 := by
    rw [distance_to_horizontal ⟨0, 0, 0, 10, 10⟩ ⟨0, 2, 0, 10, 10⟩ rfl]
    norm_num
  have hp : pairPenalty (defaultFactory 20) ⟨0, 0, 0, 10, 10⟩
      ⟨0, 2, 0, 10, 10⟩ = 1 := by
    norm_num [pairPenalty, intensityPenalty, defaultFactory]
  constructor
  · rw [hd]
    norm_num [defaultFactory]
  · rw [pairCost, if_neg (by rw [hd]; norm_num [defaultFactory]), hd, hp]
    intro h
    have h2 := EReal.coe_eq_coe_iff.mp h
    norm_num at h2

/-- C1 (amended): for every pair of spots whose distance does not exceed the
maximum linking distance, the frame-to-frame cost matrix entry is the
UNSQUARED `penalty * distance` (the source deliberately removes the square),
while the track-builder metric `dist_metric` is the squared
`(distance * penalty)^2`; the two code paths use different exponents. -/
theorem c1_cost_formulas (f : Factory) (s1 s2 : MidBodySpot)
    (h : distance_to s1 s2 ≤ (f.mid_body_linking_max_distance : ℝ)) :
    pairCost f s1 s2
      = ((((pairPenalty f s1 s2 : ℚ) : ℝ) * distance_to s1 s2 : ℝ) : EReal) ∧
    dist_metric f (rowOf s1) (rowOf s2)
      = (distance_to s1 s2 * ((pairPenalty f s1 s2 : ℚ) : ℝ)) ^ 2 :=
  ⟨by rw [pairCost, if_neg (not_lt.mpr h)], dist_metric_rowOf f s1 s2⟩

/-- Witness for C1 (amended) at the concrete spots of the counterexample. -/
theorem c1_cost_formulas_witness :
    pairCost (defaultFactory 20) ⟨0, 0, 0, 10, 10⟩ ⟨0, 2, 0, 10, 10⟩
      = ((((pairPenalty (defaultFactory 20) ⟨0, 0, 0, 10, 10⟩
          ⟨0, 2, 0, 10, 10⟩ : ℚ) : ℝ)
          * distance_to ⟨0, 0, 0, 10, 10⟩ ⟨0, 2, 0, 10, 10⟩ : ℝ) : EReal) ∧
    dist_metric (defaultFactory 20) (rowOf ⟨0, 0, 0, 10, 10⟩)
        (rowOf ⟨0, 2, 0, 10, 10⟩)
      = (distance_to ⟨0, 0, 0, 10, 10⟩ ⟨0, 2, 0, 10, 10⟩
          * ((pairPenalty (defaultFactory 20) ⟨0, 0, 0, 10, 10⟩
            ⟨0, 2, 0, 10, 10⟩ : ℚ) : ℝ)) ^ 2 :=
  c1_cost_formulas (defaultFactory 20) ⟨0, 0, 0, 10, 10⟩ ⟨0, 2, 0, 10, 10⟩
    (by rw [distance_to_horizontal ⟨0, 0, 0, 10, 10⟩ ⟨0, 2, 0, 10, 10⟩ rfl]
        norm_num [defaultFactory])

/-- The intensity penalty is nonnegative for a nonnegative weight and a
positive intensity sum. -/
theorem intensityPenalty_nonneg (w i1 i2 : ℚ) (hw : 0 ≤ w) (hi : 0 < i1 + i2) :
    0 ≤ intensityPenalty w i1 i2 := by
  rw [intensityPenalty]
  apply div_nonneg _ hi.le
  have h3 : (0:ℚ) ≤ 3 * w := by linarith
  exact mul_nonneg h3 (abs_nonneg _)

/-- C6: a pair of spots farther apart than the maximum linking distance is
excluded in both linking code paths: its frame-to-frame matrix cost is
infinite, and its `dist_metric` value exceeds the configured track cost
cutoff of both tracking configurations (`max_distance**2` for `laptrack`,
`max_distance` for `spatial_laptrack`), however similar the intensities
are.  Intensities are positive-sum (the pixel means of real detections) and
the weights nonnegative, as in the factory defaults. -/
theorem c6_beyond_max_distance_excluded (f : Factory) (s1 s2 : MidBodySpot)
    (hw1 : 0 ≤ f.weight_mklp_intensity_factor)
    (hw2 : 0 ≤ f.weight_sir_intensity_factor)
    (hi : 0 < (s1.intensity : ℚ) + (s2.intensity : ℚ))
    (hs : 0 < (s1.sir_intensity : ℚ) + (s2.sir_intensity : ℚ))
    (hmax1 : 1 ≤ f.mid_body_linking_max_distance)
    (hd : (f.mid_body_linking_max_distance : ℝ) < distance_to s1 s2) :
    pairCost f s1 s2 = ⊤ ∧
    (∀ cfg, buildTracker f "laptrack" = .ok cfg →
      ((cfg.track_cost_cutoff : ℚ) : ℝ) < dist_metric f (rowOf s1) (rowOf s2)) ∧
    (∀ cfg, buildTracker f "spatial_laptrack" = .ok cfg →
      ((cfg.track_cost_cutoff : ℚ) : ℝ) < dist_metric f (rowOf s1) (rowOf s2)) := by
  have hp1 : (1:ℚ) ≤ pairPenalty f s1 s2 := by
    have h1 := intensityPenalty_nonneg f.weight_mklp_intensity_factor
      (s1.intensity : ℚ) (s2.intensity : ℚ) hw1 hi
    have h2 := intensityPenalty_nonneg f.weight_sir_intensity_factor
      (s1.sir_intensity : ℚ) (s2.sir_intensity : ℚ) hw2 hs
    rw [pairPenalty]
    linarith
  have hp1R : (1:ℝ) ≤ ((pairPenalty f s1 s2 : ℚ) : ℝ) := by exact_mod_cast hp1
  have hm1 : (1:ℝ) ≤ (f.mid_body_linking_max_distance : ℝ) := by
    exact_mod_cast hmax1
  have hm0 : (0:ℝ) < (f.mid_body_linking_max_distance : ℝ) := by linarith
  have hd0 : (0:ℝ) < distance_to s1 s2 := lt_trans hm0 hd
  have hkey : ((f.mid_body_linking_max_distance : ℝ)) ^ 2
      < dist_metric f (rowOf s1) (rowOf s2) := by
    rw [dist_metric_rowOf]
    have h1 : ((f.mid_body_linking_max_distance : ℝ)) ^ 2
        < distance_to s1 s2 ^ 2 := by nlinarith
    have hp2 : (1:ℝ) ≤ ((pairPenalty f s1 s2 : ℚ) : ℝ) ^ 2 := by nlinarith
    have h2 : distance_to s1 s2 ^ 2
        ≤ (distance_to s1 s2 * ((pairPenalty f s1 s2 : ℚ) : ℝ)) ^ 2 := by
      rw [mul_pow]
      nlinarith
    linarith
  refine ⟨by rw [pairCost, if_pos hd], ?_, ?_⟩
  · intro cfg hcfg
    have hcut : cfg.track_cost_cutoff = f.mid_body_linking_max_distance ^ 2 := by
      have h2 := hcfg
      simp [buildTracker] at h2
      subst h2
      rfl
    rw [hcut]
    push_cast
    exact hkey
  · intro cfg hcfg
    have hcut : cfg.track_cost_cutoff = f.mid_body_linking_max_distance := by
      have h2 := hcfg
      simp [buildTracker] at h2
      subst h2
      rfl
    rw [hcut]
    have hsq : (f.mid_body_linking_max_distance : ℝ)
        ≤ ((f.mid_body_linking_max_distance : ℝ)) ^ 2 := by nlinarith
    calc ((f.mid_body_linking_max_distance : ℚ) : ℝ)
        ≤ ((f.mid_body_linking_max_distance : ℝ)) ^ 2 := hsq
      _ < dist_metric f (rowOf s1) (rowOf s2) := hkey

/-- Witness for C6 at concrete spots: distance 200 exceeds the default
maximum 175. -/
theorem c6_beyond_max_distance_excluded_witness :
    pairCost (defaultFactory 20) ⟨0, 0, 0, 10, 10⟩ ⟨0, 200, 0, 10, 10⟩ = ⊤ ∧
    (∀ cfg, buildTracker (defaultFactory 20) "laptrack" = .ok cfg →
      ((cfg.track_cost_cutoff : ℚ) : ℝ)
        < dist_metric (defaultFactory 20) (rowOf ⟨0, 0, 0, 10, 10⟩)
            (rowOf ⟨0, 200, 0, 10, 10⟩)) ∧
    (∀ cfg, buildTracker (defaultFactory 20) "spatial_laptrack" = .ok cfg →
      ((cfg.track_cost_cutoff : ℚ) : ℝ)
        < dist_metric (defaultFactory 20) (rowOf ⟨0, 0, 0, 10, 10⟩)
            (rowOf ⟨0, 200, 0, 10, 10⟩)) :=
  c6_beyond_max_distance_excluded (defaultFactory 20)
    ⟨0, 0, 0, 10, 10⟩ ⟨0, 200, 0, 10, 10⟩
    (by norm_num [defaultFactory]) (by norm_num [defaultFactory])
    (by norm_num) (by norm_num) (by norm_num [defaultFactory])
    (by rw [distance_to_horizontal ⟨0, 0, 0, 10, 10⟩ ⟨0, 200, 0, 10, 10⟩ rfl]
        norm_num [defaultFactory])

theorem distance_to_nonneg (s1 s2 : MidBodySpot) : 0 ≤ distance_to s1 s2 :=
  Real.sqrt_nonneg _

theorem one_le_pairPenalty (f : Factory) (s1 s2 : MidBodySpot)
    (hw1 : 0 ≤ f.weight_mklp_intensity_factor)
    (hw2 : 0 ≤ f.weight_sir_intensity_factor)
    (hi : 0 < (s1.intensity : ℚ) + (s2.intensity : ℚ))
    (hs : 0 < (s1.sir_intensity : ℚ) + (s2.sir_intensity : ℚ)) :
    (1:ℚ) ≤ pairPenalty f s1 s2 := by
  have ha := intensityPenalty_nonneg f.weight_mklp_intensity_factor
    (s1.intensity : ℚ) (s2.intensity : ℚ) hw1 hi
  have hb := intensityPenalty_nonneg f.weight_sir_intensity_factor
    (s1.sir_intensity : ℚ) (s2.sir_intensity : ℚ) hw2 hs
  rw [pairPenalty]
  linarith

theorem pairCost_nonneg (f : Factory) (s1 s2 : MidBodySpot)
    (hw1 : 0 ≤ f.weight_mklp_intensity_factor)
    (hw2 : 0 ≤ f.weight_sir_intensity_factor)
    (hi : 0 < (s1.intensity : ℚ) + (s2.intensity : ℚ))
    (hs : 0 < (s1.sir_intensity : ℚ) + (s2.sir_intensity : ℚ)) :
    0 ≤ pairCost f s1 s2 := by
  rw [pairCost]
  split
  · exact le_top
  · rw [EReal.coe_nonneg]
    have hp := one_le_pairPenalty f s1 s2 hw1 hw2 hi hs
    have hp' : (0:ℝ) ≤ ((pairPenalty f s1 s2 : ℚ) : ℝ) := by
      exact_mod_cast le_trans zero_le_one hp
    exact mul_nonneg hp' (distance_to_nonneg s1 s2)

theorem mem_loopPairs (n m : ℕ) (p : ℕ × ℕ) :
    p ∈ loopPairs n m ↔ p.1 < n ∧ p.2 < m := by
  cases p with
  | mk i j => simp [loopPairs, List.mem_flatMap]

theorem nodup_loopPairs (n m : ℕ) : (loopPairs n m).Nodup := by
  rw [loopPairs, List.nodup_flatMap]
  constructor
  · intro i _
    exact (List.nodup_range m).map (fun a b h => by simpa using h)
  · refine (List.nodup_range n).imp ?_
    intro a b hab x hx hx'
    rcases List.mem_map.mp hx with ⟨j, _, rfl⟩
    rcases List.mem_map.mp hx' with ⟨j', _, hj⟩
    injection hj with hj1 hj2
    exact hab hj1.symm

theorem matFold_untouched (v : ℕ × ℕ → EReal) (l : List (ℕ × ℕ))
    (m0 : ℕ → ℕ → EReal) (i j : ℕ) (h : (i, j) ∉ l) :
    (l.foldl (fun m p => matWrite m p.1 p.2 (v p)) m0) i j = m0 i j := by
  induction l generalizing m0 with
  | nil => rfl
  | cons q qs ih =>
    rw [List.foldl_cons,
      ih _ fun hm => h (List.mem_cons_of_mem _ hm), matWrite]
    rw [if_neg]
    rintro ⟨hq1, hq2⟩
    apply h
    have hq : (i, j) = q := by rw [hq1, hq2]
    rw [hq]
    exact List.mem_cons_self _ _

theorem matFold_mem (v : ℕ × ℕ → EReal) (l : List (ℕ × ℕ))
    (m0 : ℕ → ℕ → EReal) (i j : ℕ) (hnd : l.Nodup) (hm : (i, j) ∈ l) :
    (l.foldl (fun m p => matWrite m p.1 p.2 (v p)) m0) i j = v (i, j) := by
  induction l generalizing m0 with
  | nil => cases hm
  | cons q qs ih =>
    rw [List.foldl_cons]
    rcases List.mem_cons.mp hm with h | h
    · subst h
      rw [matFold_untouched _ _ _ _ _ (List.nodup_cons.mp hnd).1, matWrite,
        if_pos ⟨rfl, rfl⟩]
    · exact ih _ (List.nodup_cons.mp hnd).2 h

theorem loopMatrix_eq (f : Factory) (spots1 spots2 : List MidBodySpot)
    (i j : ℕ) :
    loopMatrix f spots1 spots2 i j
      = if i < spots1.length ∧ j < spots2.length then
          pairCost f (spots1.getD i dummySpot) (spots2.getD j dummySpot)
        else 0 := by
  rw [loopMatrix]
  by_cases h : i < spots1.length ∧ j < spots2.length
  · rw [if_pos h]
    exact matFold_mem
      (fun p => pairCost f (spots1.getD p.1 dummySpot)
        (spots2.getD p.2 dummySpot))
      (loopPairs spots1.length spots2.length) (fun _ _ => 0) i j
      (nodup_loopPairs _ _) ((mem_loopPairs _ _ _).mpr h)
  · rw [if_neg h]
    exact matFold_untouched _ _ _ _ _ fun hmm => h ((mem_loopPairs _ _ _).mp hmm)

theorem maxCost_fold_eq (f : Factory) (spots1 spots2 : List MidBodySpot)
    (l : List (ℕ × ℕ)) (a : ℝ) :
    l.foldl (fun acc p =>
      if (f.mid_body_linking_max_distance : ℝ)
          < distance_to (spots1.getD p.1 dummySpot) (spots2.getD p.2 dummySpot)
      then acc
      else max acc ((pairPenalty f (spots1.getD p.1 dummySpot)
          (spots2.getD p.2 dummySpot) : ℝ)
        * distance_to (spots1.getD p.1 dummySpot) (spots2.getD p.2 dummySpot))) a
    = (l.filterMap fun p =>
        if pairCost f (spots1.getD p.1 dummySpot) (spots2.getD p.2 dummySpot) = ⊤
        then none
        else some (pairCost f (spots1.getD p.1 dummySpot)
          (spots2.getD p.2 dummySpot)).toReal).foldl max a := by
  induction l generalizing a with
  | nil => rfl
  | cons p ps ih =>
    rw [List.foldl_cons, List.filterMap_cons]
    by_cases hfar : (f.mid_body_linking_max_distance : ℝ)
        < distance_to (spots1.getD p.1 dummySpot) (spots2.getD p.2 dummySpot)
    · rw [if_pos hfar]
      have hc : pairCost f (spots1.getD p.1 dummySpot)
          (spots2.getD p.2 dummySpot) = ⊤ := by rw [pairCost, if_pos hfar]
      rw [hc]
      simp only [if_pos rfl]
      exact ih a
    · rw [if_neg hfar]
      have hc : pairCost f (spots1.getD p.1 dummySpot)
          (spots2.getD p.2 dummySpot)
          = (((pairPenalty f (spots1.getD p.1 dummySpot)
              (spots2.getD p.2 dummySpot) : ℚ) : ℝ)
            * distance_to (spots1.getD p.1 dummySpot)
              (spots2.getD p.2 dummySpot) : ℝ) := by
        rw [pairCost, if_neg hfar]
      rw [hc]
      rw [if_neg (EReal.coe_ne_top _), EReal.toReal_coe, List.foldl_cons]
      exact ih _

theorem maxCostLoop_eq (f : Factory) (spots1 spots2 : List MidBodySpot) :
    maxCostLoop f spots1 spots2 = maxFiniteCost f spots1 spots2 := by
  rw [maxCostLoop, maxFiniteCost, pairwiseCosts, List.filterMap_map]
  exact maxCost_fold_eq f spots1 spots2 _ 0

theorem init_le_foldl_max (l : List EReal) (a : EReal) : a ≤ l.foldl max a := by
  induction l generalizing a with
  | nil => exact le_refl a
  | cons x xs ih => exact le_trans (le_max_left a x) (ih (max a x))

theorem foldl_max_le_mem (l : List EReal) (a : EReal) (x : EReal)
    (hx : x ∈ l) : x ≤ l.foldl max a := by
  induction l generalizing a with
  | nil => cases hx
  | cons y ys ih =>
    rcases List.mem_cons.mp hx with h | h
    · subst h
      exact le_trans (le_max_right a x) (init_le_foldl_max ys (max a x))
    · exact ih (max a y) h

theorem foldl_max_all_zero (l : List EReal) (h : ∀ x ∈ l, x = 0) :
    l.foldl max (0 : EReal) = 0 := by
  induction l with
  | nil => rfl
  | cons y ys ih =>
    rw [List.foldl_cons, h y (List.mem_cons_self _ _), max_self]
    exact ih fun x hx => h x (List.mem_cons_of_mem _ hx)

theorem foldl_min_le_init (l : List EReal) (a : EReal) : l.foldl min a ≤ a := by
  induction l generalizing a with
  | nil => exact le_refl a
  | cons x xs ih => exact le_trans (ih (min a x)) (min_le_left a x)

theorem foldl_min_le_mem (l : List EReal) (a : EReal) (x : EReal)
    (hx : x ∈ l) : l.foldl min a ≤ x := by
  induction l generalizing a with
  | nil => cases hx
  | cons y ys ih =>
    rcases List.mem_cons.mp hx with h | h
    · subst h
      exact le_trans (foldl_min_le_init ys (min a x)) (min_le_right a x)
    · exact ih (min a y) h

theorem foldl_min_eq_init_or_mem (l : List EReal) (a : EReal) :
    l.foldl min a = a ∨ l.foldl min a ∈ l := by
  induction l generalizing a with
  | nil => exact Or.inl rfl
  | cons y ys ih =>
    rw [List.foldl_cons]
    rcases ih (min a y) with h | h
    · rcases min_choice a y with hc | hc
      · exact Or.inl (h.trans hc)
      · exact Or.inr (by rw [h, hc]; exact List.mem_cons_self _ _)
    · exact Or.inr (List.mem_cons_of_mem _ h)

theorem foldl_min_congr_mem (l1 l2 : List EReal)
    (h : ∀ x, x ∈ l1 ↔ x ∈ l2) : l1.foldl min ⊤ = l2.foldl min ⊤ := by
  apply le_antisymm
  · rcases foldl_min_eq_init_or_mem l2 ⊤ with h2 | h2
    · rw [h2]; exact le_top
    · exact foldl_min_le_mem l1 ⊤ _ ((h _).mpr h2)
  · rcases foldl_min_eq_init_or_mem l1 ⊤ with h2 | h2
    · rw [h2]; exact le_top
    · exact foldl_min_le_mem l2 ⊤ _ ((h _).mp h2)

theorem mem_entries_iff (f : Factory) (spots1 spots2 : List MidBodySpot)
    (x : EReal) (hx : x ≠ 0) :
    x ∈ entriesList (loopMatrix f spots1 spots2)
        (spots1.length + spots2.length)
      ↔ x ∈ pairwiseCosts f spots1 spots2 := by
  rw [entriesList, pairwiseCosts]
  constructor
  · intro h
    rcases List.mem_map.mp h with ⟨p, hp, hval⟩
    rw [loopMatrix_eq] at hval
    by_cases hin : p.1 < spots1.length ∧ p.2 < spots2.length
    · rw [if_pos hin] at hval
      exact List.mem_map.mpr ⟨p, (mem_loopPairs _ _ _).mpr hin, hval⟩
    · rw [if_neg hin] at hval
      exact absurd hval.symm hx
  · intro h
    rcases List.mem_map.mp h with ⟨p, hp, hval⟩
    have hin := (mem_loopPairs _ _ _).mp hp
    refine List.mem_map.mpr ⟨p, (mem_loopPairs _ _ _).mpr
      ⟨by omega, by omega⟩, ?_⟩
    rw [loopMatrix_eq, if_pos hin]
    exact hval

theorem pairwiseCosts_nonneg (f : Factory) (spots1 spots2 : List MidBodySpot)
    (hw1 : 0 ≤ f.weight_mklp_intensity_factor)
    (hw2 : 0 ≤ f.weight_sir_intensity_factor)
    (hpos : ∀ s ∈ spots1 ++ spots2, 0 < s.intensity ∧ 0 < s.sir_intensity) :
    ∀ c ∈ pairwiseCosts f spots1 spots2, 0 ≤ c := by
  intro c hc
  rcases List.mem_map.mp hc with ⟨p, hp, hval⟩
  have hin := (mem_loopPairs _ _ _).mp hp
  have ha : spots1.getD p.1 dummySpot ∈ spots1 := by
    rw [List.getD_eq_getElem _ _ hin.1]
    exact List.getElem_mem _
  have hb : spots2.getD p.2 dummySpot ∈ spots2 := by
    rw [List.getD_eq_getElem _ _ hin.2]
    exact List.getElem_mem _
  have h1 := hpos _ (List.mem_append.mpr (Or.inl ha))
  have h2 := hpos _ (List.mem_append.mpr (Or.inr hb))
  rw [← hval]
  refine pairCost_nonneg f _ _ hw1 hw2 ?_ ?_
  · exact_mod_cast add_pos h1.1 h2.1
  · exact_mod_cast add_pos h1.2 h2.2

theorem npMax_zero_iff (f : Factory) (spots1 spots2 : List MidBodySpot)
    (h1 : spots1 ≠ [])
    (hnn : ∀ c ∈ pairwiseCosts f spots1 spots2, 0 ≤ c) :
    (entriesList (loopMatrix f spots1 spots2)
        (spots1.length + spots2.length)).foldl max ⊥ = 0
      ↔ ∀ c ∈ pairwiseCosts f spots1 spots2, c = 0 := by
  constructor
  · intro h c hc
    by_cases hc0 : c = 0
    · exact hc0
    · have hmem := (mem_entries_iff f spots1 spots2 c hc0).mpr hc
      have hle := foldl_max_le_mem _ ⊥ c hmem
      rw [h] at hle
      exact le_antisymm hle (hnn c hc)
  · intro h
    have hall : ∀ x ∈ entriesList (loopMatrix f spots1 spots2)
        (spots1.length + spots2.length), x = 0 := by
      intro x hx
      rcases List.mem_map.mp hx with ⟨p, hp, hval⟩
      rw [loopMatrix_eq] at hval
      by_cases hin : p.1 < spots1.length ∧ p.2 < spots2.length
      · rw [if_pos hin] at hval
        rw [← hval]
        exact h _ (List.mem_map.mpr ⟨p, (mem_loopPairs _ _ _).mpr hin, rfl⟩)
      · rw [if_neg hin] at hval
        exact hval.symm
    have hN : 0 < spots1.length := List.length_pos.mpr h1
    have hmem00 : loopMatrix f spots1 spots2 0 0
        ∈ entriesList (loopMatrix f spots1 spots2)
          (spots1.length + spots2.length) :=
      List.mem_map.mpr ⟨(0, 0), (mem_loopPairs _ _ _).mpr ⟨by omega, by omega⟩,
        rfl⟩
    cases hE : entriesList (loopMatrix f spots1 spots2)
        (spots1.length + spots2.length) with
    | nil => rw [hE] at hmem00; cases hmem00
    | cons e rest =>
      have he : e = 0 := hall e (hE ▸ List.mem_cons_self _ _)
      have hrest : ∀ x ∈ rest, x = 0 := fun x hx =>
        hall x (hE ▸ List.mem_cons_of_mem _ hx)
      rw [List.foldl_cons, he, max_eq_right bot_le]
      exact foldl_max_all_zero rest hrest

theorem minCostVal_eq (f : Factory) (spots1 spots2 : List MidBodySpot)
    (h1 : spots1 ≠ [])
    (hnn : ∀ c ∈ pairwiseCosts f spots1 spots2, 0 ≤ c) :
    minCostVal f spots1 spots2 = minNonzeroCost f spots1 spots2 := by
  simp only [minCostVal, minNonzeroCost]
  refine if_congr (npMax_zero_iff f spots1 spots2 h1 hnn) rfl ?_
  apply foldl_min_congr_mem
  intro x
  rw [List.mem_filter, List.mem_filter]
  constructor
  · rintro ⟨hmem, hx⟩
    have hx' : x ≠ 0 := by simpa using hx
    exact ⟨(mem_entries_iff f spots1 spots2 x hx').mp hmem, hx⟩
  · rintro ⟨hmem, hx⟩
    have hx' : x ≠ 0 := by simpa using hx
    exact ⟨(mem_entries_iff f spots1 spots2 x hx').mpr hmem, hx⟩

/-- C5: for nonempty spot lists (with the positive intensities of real
detections and nonnegative weights), the frame-to-frame cost matrix built by
`_update_spots_hereditary` is the square matrix of side `N + M` whose
top-left block holds the pairwise costs, whose top-right (`[:N, M:]`) and
bottom-left (`[N:, :M]`) blocks hold `1.05 ×` the maximum finite pairwise
cost, and whose bottom-right block holds the minimum observed nonzero
pairwise cost, which is `0` when every pairwise cost is `0`. -/
theorem c5_cost_matrix_blocks (f : Factory) (spots1 spots2 : List MidBodySpot)
    (h1 : spots1 ≠ []) (_h2 : spots2 ≠ [])
    (hw1 : 0 ≤ f.weight_mklp_intensity_factor)
    (hw2 : 0 ≤ f.weight_sir_intensity_factor)
    (hpos : ∀ s ∈ spots1 ++ spots2, 0 < s.intensity ∧ 0 < s.sir_intensity) :
    (∀ i j, i < spots1.length → j < spots2.length →
      costMatrix f spots1 spots2 i j
        = pairCost f (spots1.getD i dummySpot) (spots2.getD j dummySpot)) ∧
    (∀ i j, i < spots1.length → spots2.length ≤ j →
      j < spots1.length + spots2.length →
      costMatrix f spots1 spots2 i j
        = ((1.05 * maxFiniteCost f spots1 spots2 : ℝ) : EReal)) ∧
    (∀ i j, spots1.length ≤ i → i < spots1.length + spots2.length →
      j < spots2.length →
      costMatrix f spots1 spots2 i j
        = ((1.05 * maxFiniteCost f spots1 spots2 : ℝ) : EReal)) ∧
    (∀ i j, spots1.length ≤ i → spots2.length ≤ j →
      costMatrix f spots1 spots2 i j = minNonzeroCost f spots1 spots2) ∧
    ((∀ c ∈ pairwiseCosts f spots1 spots2, c = 0) →
      minNonzeroCost f spots1 spots2 = 0) := by
  have hnn := pairwiseCosts_nonneg f spots1 spots2 hw1 hw2 hpos
  have hmax := maxCostLoop_eq f spots1 spots2
  refine ⟨?_, ?_, ?_, ?_, ?_⟩
  · intro i j hi hj
    simp only [costMatrix, regionWrite]
    rw [if_neg (by omega), if_neg (by omega), if_neg (by omega),
      loopMatrix_eq, if_pos ⟨hi, hj⟩]
  · intro i j hi hj hj2
    simp only [costMatrix, regionWrite]
    rw [if_neg (by omega), if_pos ⟨hi, hj⟩, hmax, mul_comm]
  · intro i j hi hi2 hj
    simp only [costMatrix, regionWrite]
    rw [if_neg (by omega), if_neg (by omega), if_pos ⟨hi, hj⟩, hmax, mul_comm]
  · intro i j hi hj
    simp only [costMatrix, regionWrite]
    rw [if_pos ⟨hi, hj⟩]
    exact minCostVal_eq f spots1 spots2 h1 hnn
  · intro hall
    rw [minNonzeroCost, if_pos hall]

/-- Witness for C5 at two singleton spot lists: the top-right entry is
`1.05 ×` the maximum finite pairwise cost and the bottom-right entry the
minimum nonzero pairwise cost. -/
theorem c5_cost_matrix_blocks_witness :
    costMatrix (defaultFactory 20) [⟨0, 0, 0, 10, 10⟩] [⟨0, 2, 0, 10, 10⟩] 0 1
      = ((1.05 * maxFiniteCost (defaultFactory 20)
          [⟨0, 0, 0, 10, 10⟩] [⟨0, 2, 0, 10, 10⟩] : ℝ) : EReal) ∧
    costMatrix (defaultFactory 20) [⟨0, 0, 0, 10, 10⟩] [⟨0, 2, 0, 10, 10⟩] 1 1
      = minNonzeroCost (defaultFactory 20)
          [⟨0, 0, 0, 10, 10⟩] [⟨0, 2, 0, 10, 10⟩] := by
  have h := c5_cost_matrix_blocks (defaultFactory 20)
    [⟨0, 0, 0, 10, 10⟩] [⟨0, 2, 0, 10, 10⟩]
    (by decide) (by decide) (by norm_num [defaultFactory])
    (by norm_num [defaultFactory]) (by decide)
  exact ⟨h.2.1 0 1 (by decide) (by decide) (by decide),
    h.2.2.2.1 1 1 (by decide) (by decide)⟩

end CutDetector
